import Mathlib

/-!
Verification of the job-queue service core.

The development shallowly embeds the TypeScript sources:
* `JobStatus.ts`, `JobConfig.ts`, `JobPayload.ts`, `JobResult.ts` — value objects;
* `JobFactory` (createJob / startJob / completeJob / failJob / cancelJob /
  isEligible / isTerminal) — pure transition functions over job snapshots;
* `JobQueue` (addJob / updateJob / getJobById / getNextEligibleJob) — the
  in-memory store, a JavaScript `Map` modelled as a list of snapshots kept in
  insertion order (`Map.set` on an existing key keeps the original position);
* `JobExecutor.executeJob` — randomness is passed in explicitly (the boolean
  failure draw and the index into the error-code table), clock reads are
  explicit `Int` parameters;
* `JobProcessor.processJobById` and a small-step relation for the scheduler
  loop (`SchedStep` / `Run`) in which the claim step (read `nextEligible`,
  `start`, write back) is a single atomic step, reflecting the absence of an
  `await` between those statements in `processNextJob`.

Fallible operations return `Except String _` mirroring `throw new Error(...)`;
timestamps are integers (`Date.now()` values supplied by the caller).
-/

set_option maxHeartbeats 1000000

deriving instance DecidableEq for Except

namespace JobService

/-- Embedding of `JobStatus.ts` (`PENDING | RUNNING | COMPLETED | FAILED | CANCELLED`). -/
inductive JobStatus where
  | pending
  | running
  | completed
  | failed
  | cancelled
deriving DecidableEq, Repr

/-- String value of each status, as in the TypeScript enum. -/
def statusStr : JobStatus → String
  | .pending => "pending"
  | .running => "running"
  | .completed => "completed"
  | .failed => "failed"
  | .cancelled => "cancelled"

/-- A JavaScript value that the executor's message-table lookup can produce:
an actual string, or a truthy member inherited from `Object.prototype` — a
bracket lookup on an object literal consults the prototype chain, so for a
key such as "toString" it yields the inherited function, not `undefined`. -/
inductive JsVal where
  | str (s : String)
  | inherited (name : String)
deriving DecidableEq, Repr

/-- The keys a string-keyed bracket lookup finds on `Object.prototype` when
the object literal has no own property under that key; each names a function
or accessor whose value is truthy, so a following `|| fallback` does not
fire. -/
def objectPrototypeKeys : List String :=
  ["constructor", "hasOwnProperty", "isPrototypeOf", "propertyIsEnumerable",
   "toLocaleString", "toString", "valueOf", "__defineGetter__",
   "__defineSetter__", "__lookupGetter__", "__lookupSetter__", "__proto__"]

/-- Embedding of `JobResult.ts`: a tagged union of `SuccessResult`
(`message`, optional `data`) and `ErrorResult` (`message`, numeric `code`,
optional `details`).  The message is a `JsVal` because the executor's
message lookup can return an inherited `Object.prototype` member at runtime
(despite the TypeScript `string` annotation).  The optional `data`/`details`
payloads produced by the executor are pairs of a job type and a timestamp. -/
inductive JobResult where
  | success (message : JsVal) (data : Option (String × Int))
  | error (message : JsVal) (code : Int) (details : Option (String × Int))
deriving DecidableEq, Repr

/-- `createSuccessResult` from `JobResult.ts`. -/
def createSuccessResult (message : JsVal) (data : Option (String × Int)) : JobResult :=
  .success message data

/-- `createErrorResult` from `JobResult.ts`. -/
def createErrorResult (message : JsVal) (code : Int) (details : Option (String × Int)) :
    JobResult :=
  .error message code details

/-- The runtime value handed to `validatePayload`: either absent
(`undefined`/`null`), a non-object value, or a key-value mapping, of which the
core only ever inspects the key set. -/
inductive RawPayload where
  | missing
  | notMapping
  | mapping (keys : List String)
deriving DecidableEq, Repr

/-- `validatePayload` from `JobPayload.ts`: rejects missing / non-object
payloads and empty mappings. -/
def validatePayload : RawPayload → Except String Unit
  | .missing => .error "Payload must be a valid object"
  | .notMapping => .error "Payload must be a valid object"
  | .mapping keys =>
    if keys.isEmpty then .error "Payload cannot be empty" else .ok ()

/-- The optional submitted configuration (`JobConfig`): an optional `delay`. -/
structure JobConfigIn where
  delay : Option Int
deriving DecidableEq, Repr

/-- The normalized configuration (`Required<JobConfig>`). -/
structure JobConfigR where
  delay : Int
deriving DecidableEq, Repr

/-- `normalizeJobConfig` from `JobConfig.ts`: `config?.delay ?? 0`, rejecting
negative delays. -/
def normalizeJobConfig (config : Option JobConfigIn) : Except String JobConfigR :=
  let delay : Int :=
    match config with
    | none => 0
    | some c => c.delay.getD 0
  if delay < 0 then .error "Delay must be a non-negative number"
  else .ok { delay := delay }

/-- Embedding of the `Job` snapshot record (`Job.ts`). -/
structure Job where
  id : String
  status : JobStatus
  type : String
  payload : RawPayload
  config : JobConfigR
  created_at : Int
  eligible_at : Int
  started_at : Option Int := none
  finished_at : Option Int := none
  execution_time : Option Int := none
  result : Option JobResult := none
deriving DecidableEq, Repr

/-- Submission data (`JobData` in `Job.ts`). -/
structure JobData where
  type : String
  payload : RawPayload
  config : Option JobConfigIn
deriving DecidableEq, Repr

/-- `JobFactory.createJob`.  The fresh uuid and the `Date.now()` reading are
explicit parameters. -/
def createJob (data : JobData) (newId : String) (now : Int) : Except String Job := do
  let _u ← validatePayload data.payload
  let config ← normalizeJobConfig data.config
  let eligible_at := now + config.delay
  pure { id := newId, status := JobStatus.pending, type := data.type,
         payload := data.payload, config := config,
         created_at := now, eligible_at := eligible_at }

/-- `JobFactory.startJob`: Pending → Running, setting `started_at`. -/
def startJob (job : Job) (now : Int) : Except String Job :=
  if job.status ≠ JobStatus.pending then
    .error ("Cannot start job in " ++ statusStr job.status ++ " status")
  else
    .ok { job with status := JobStatus.running, started_at := some now }

/-- The `execution_time` computation shared by `completeJob` and `failJob`:
`job.started_at ? now - job.started_at : 0`.  The condition is JavaScript
truthiness: it fails when `started_at` is absent and also when it equals
`0`, so both cases take the defensive `0` branch. -/
def execTime (job : Job) (now : Int) : Int :=
  match job.started_at with
  | some s => if s = 0 then 0 else now - s
  | none => 0

/-- `JobFactory.completeJob`: Running → Completed, setting `result`,
`execution_time` and `finished_at` from a single `now` reading. -/
def completeJob (job : Job) (result : JobResult) (now : Int) : Except String Job :=
  if job.status ≠ JobStatus.running then
    .error ("Cannot complete job in " ++ statusStr job.status ++ " status")
  else
    .ok { job with status := JobStatus.completed, result := some result, execution_time := some (execTime job now), finished_at := some now }

/-- `JobFactory.failJob`: Running → Failed, setting `result`,
`execution_time` and `finished_at` from a single `now` reading. -/
def failJob (job : Job) (result : JobResult) (now : Int) : Except String Job :=
  if job.status ≠ JobStatus.running then
    .error ("Cannot fail job in " ++ statusStr job.status ++ " status")
  else
    .ok { job with status := JobStatus.failed, result := some result, execution_time := some (execTime job now), finished_at := some now }

/-- `JobFactory.cancelJob`: Pending → Cancelled with the fixed cancellation
result (message "Job was cancelled", code 499). -/
def cancelJob (job : Job) (now : Int) : Except String Job :=
  if job.status ≠ JobStatus.pending then
    .error ("Cannot cancel job in " ++ statusStr job.status ++ " status")
  else
    .ok { job with status := JobStatus.cancelled, result := some (JobResult.error (JsVal.str "Job was cancelled") 499 none), finished_at := some now }

/-- `JobFactory.isEligible`: `Date.now() >= job.eligible_at`. -/
def isEligible (job : Job) (now : Int) : Bool :=
  decide (job.eligible_at ≤ now)

/-- `JobFactory.isTerminal`. -/
def isTerminal (job : Job) : Bool :=
  job.status == JobStatus.completed || job.status == JobStatus.failed ||
    job.status == JobStatus.cancelled

/-! ## The store (`JobQueue.ts`)

A JavaScript `Map<string, Job>` keyed by `job.id`, modelled as the list of its
values in insertion order: `Map.set` on a present key overwrites in place
(keeping the original position), otherwise appends. -/

/-- `Map.has(id)`. -/
def hasJob (jobs : List Job) (jobId : String) : Bool :=
  jobs.any (fun k => k.id == jobId)

/-- In-place overwrite of every entry stored under `j.id` (there is at most
one when ids are unique, as in a `Map`). -/
def replaceById (jobs : List Job) (j : Job) : List Job :=
  jobs.map (fun k => if k.id == j.id then j else k)

/-- `Map.set(job.id, job)`: overwrite in place if present, append otherwise. -/
def mapSet (jobs : List Job) (j : Job) : List Job :=
  if hasJob jobs j.id then replaceById jobs j else jobs ++ [j]

/-- `JobQueue.addJob`: `this.jobs.set(job.id, job)` — no presence check. -/
def addJob (jobs : List Job) (j : Job) : List Job :=
  mapSet jobs j

/-- `JobQueue.updateJob`: fails when the id is absent, otherwise `Map.set`. -/
def updateJob (jobs : List Job) (j : Job) : Except String (List Job) :=
  if hasJob jobs j.id then .ok (mapSet jobs j)
  else .error ("Job with id " ++ j.id ++ " not found")

/-- `JobQueue.getJobById`: `Map.get`. -/
def getJobById (jobs : List Job) (jobId : String) : Option Job :=
  jobs.find? (fun k => k.id == jobId)

/-- The sort comparator of `getNextEligibleJob`:
`(a, b) => a.created_at - b.created_at`, an ascending order on `created_at`
executed by the (stable) built-in sort. -/
def leCreated (a b : Job) : Bool :=
  decide (a.created_at ≤ b.created_at)

/-- `JobQueue.getNextEligibleJob`: filter the Pending, eligible snapshots,
stable-sort them by `created_at` ascending, return the first (or absent). -/
def getNextEligibleJob (now : Int) (jobs : List Job) : Option Job :=
  let eligibleJobs :=
    jobs.filter (fun job => job.status == JobStatus.pending && isEligible job now)
  if eligibleJobs.isEmpty then none
  else (eligibleJobs.mergeSort leCreated).head?

/-- `InMemoryJobRepository.save`: update the entry when the id is present
(`updateJob` cannot fail there since presence was just checked), add it
otherwise.  Either way the snapshot ends up stored under its id. -/
def save (jobs : List Job) (j : Job) : List Job :=
  if hasJob jobs j.id then mapSet jobs j else addJob jobs j

/-! ## The executor (`JobExecutor.ts`)

The two random draws — the 10% failure draw and the uniform index into the
error-code table — and the `Date.now()` readings are explicit parameters.
The simulated wait only consumes wall-clock time and is not observable in the
returned snapshot beyond the clock values passed in. -/

/-- `JobExecutor.generateSuccessMessage`: `messages[jobType] || fallback`.
The bracket lookup first finds the four own keys, then the truthy inherited
`Object.prototype` members (for which `||` does not fall through), and only
otherwise yields `undefined` and hence the generic fallback. -/
def generateSuccessMessage (jobType : String) : JsVal :=
  if jobType = "email" then .str "Email sent successfully!"
  else if jobType = "sms" then .str "SMS sent successfully!"
  else if jobType = "notification" then .str "Notification delivered successfully!"
  else if jobType = "webhook" then .str "Webhook called successfully!"
  else if objectPrototypeKeys.contains jobType then .inherited jobType
  else .str ("Job of type '" ++ jobType ++ "' completed successfully!")

/-- `JobExecutor.generateFailureMessage`: `messages[jobType] || fallback`.
The bracket lookup first finds the four own keys, then the truthy inherited
`Object.prototype` members (for which `||` does not fall through), and only
otherwise yields `undefined` and hence the generic fallback. -/
def generateFailureMessage (jobType : String) : JsVal :=
  if jobType = "email" then .str "Failed to call SMTP service"
  else if jobType = "sms" then .str "Failed to call SMS gateway"
  else if jobType = "notification" then .str "Failed to deliver notification"
  else if jobType = "webhook" then .str "Failed to call webhook endpoint"
  else if objectPrototypeKeys.contains jobType then .inherited jobType
  else .str ("Failed to execute job of type '" ++ jobType ++ "'")

/-- The error-code table `[500, 502, 503, 504]`. -/
def errorCodes : List Int := [500, 502, 503, 504]

/-- `JobExecutor.generateErrorCode`: `errorCodes[floor(random * 4)]`; the
uniform draw is the explicit index. -/
def generateErrorCode (idx : Fin 4) : Int :=
  errorCodes.get ⟨idx.val, idx.isLt⟩

/-- `JobExecutor.executeJob`.  `draw` is the 10% failure draw
(`Math.random() < FAILURE_RATE`), `idx` the error-code draw, `tsData` the
`Date.now()` reading stored in the result data/details, `nowFin` the reading
taken inside `completeJob`/`failJob`. -/
def executeJob (job : Job) (draw : Bool) (idx : Fin 4) (tsData nowFin : Int) :
    Except String Job :=
  if draw then
    failJob job
      (createErrorResult (generateFailureMessage job.type) (generateErrorCode idx)
        (some (job.type, tsData))) nowFin
  else
    completeJob job
      (createSuccessResult (generateSuccessMessage job.type) (some (job.type, tsData)))
      nowFin

/-! ## The scheduler (`JobProcessor.ts`) -/

/-- `JobProcessor.processJobById`: look up, check eligibility, claim
(`startJob` + `updateJob`), execute inline, write back, return the terminal
snapshot.  Errors propagate to the caller. -/
def processJobById (jobs : List Job) (jobId : String) (draw : Bool) (idx : Fin 4)
    (nowElig nowStart tsData nowFin : Int) : Except String (Job × List Job) :=
  match getJobById jobs jobId with
  | none => .error ("Job with id " ++ jobId ++ " not found")
  | some job =>
    if !(isEligible job nowElig) then
      .error ("Job " ++ jobId ++ " is not eligible yet (delay not fulfilled)")
    else do
      let runningJob ← startJob job nowStart
      let jobs1 ← updateJob jobs runningJob
      let finishedJob ← executeJob runningJob draw idx tsData nowFin
      let jobs2 ← updateJob jobs1 finishedJob
      pure (finishedJob, jobs2)


/-! ## Specification-side definition, scheduler model, sample snapshots -/

/-- Written from the spec's words, to be compared with `getNextEligibleJob`:
among snapshots with status Pending and `isEligible` true, the first — in
insertion order — of those whose `created_at` is smallest. -/
def nextEligibleSpec (now : Int) (jobs : List Job) : Option Job :=
  let es := jobs.filter (fun job => job.status == JobStatus.pending && isEligible job now)
  es.find? (fun k => es.all (fun m => leCreated k m))

/-- The effective delay of a submission: `config?.delay ?? 0` — written from
the spec's words ("delay defaults to 0 when config or config.delay is
absent"), used to state the creation claim. -/
def requestedDelay : Option JobConfigIn → Int
  | none => 0
  | some c => c.delay.getD 0

/-- The ids of the stored snapshots are pairwise distinct — always true of a
JavaScript `Map`, whose keys are unique. -/
def idsNodup (jobs : List Job) : Prop :=
  (jobs.map (fun k => k.id)).Nodup

/-- A snapshot with id `i` is stored and is no longer Pending. -/
def ClaimedDone (jobs : List Job) (i : String) : Prop :=
  ∃ j, getJobById jobs i = some j ∧ j.status ≠ JobStatus.pending

/-- One observable step of the system built around the scheduler loop
(`JobProcessor`).  In the single-threaded cooperative runtime the claim —
read `getNextEligibleJob`, `startJob`, write back via `updateJob` — contains
no suspension point (`processNextJob` has no `await` between those
statements), so it is one atomic step; likewise the claim inside
`processJobById`.  The executor's resolution (the only suspension point)
writes the terminal snapshot back in a separate, later step.  Submissions and
cancellations are the other writers to the store.  A step is labelled with
the ids it claims (hands to the executor). -/
inductive SchedStep : List Job → List String → List Job → Prop where
  | tickNone (now : Int) (s : List Job) :
      getNextEligibleJob now s = none → SchedStep s [] s
  | tickClaim (now : Int) (s : List Job) (job r : Job) (s2 : List Job) :
      getNextEligibleJob now s = some job → startJob job now = .ok r →
      updateJob s r = .ok s2 → SchedStep s [job.id] s2
  | tickResolve (s : List Job) (r : Job) (draw : Bool) (idx : Fin 4)
      (tsData nowFin : Int) (f : Job) (s2 : List Job) :
      executeJob r draw idx tsData nowFin = .ok f → updateJob s f = .ok s2 →
      SchedStep s [] s2
  | submitNew (s : List Job) (j : Job) :
      hasJob s j.id = false → j.status = JobStatus.pending →
      SchedStep s [] (save s j)
  | cancelReq (s : List Job) (i : String) (j c : Job) (now : Int) (s2 : List Job) :
      getJobById s i = some j → cancelJob j now = .ok c → updateJob s c = .ok s2 →
      SchedStep s [] s2
  | byIdClaim (s : List Job) (i : String) (job r : Job) (nowElig now : Int) (s2 : List Job) :
      getJobById s i = some job → isEligible job nowElig = true →
      startJob job now = .ok r → updateJob s r = .ok s2 →
      SchedStep s [job.id] s2

/-- A finite run of the system; the label list collects every claimed id. -/
inductive Run : List Job → List String → List Job → Prop where
  | nil (s : List Job) : Run s [] s
  | cons (s : List Job) (l : List String) (s2 : List Job) (tr : List String) (s3 : List Job) :
      SchedStep s l s2 → Run s2 tr s3 → Run s (l ++ tr) s3

/-- Snapshots reachable through the factory: created by `createJob`,
transformed only by the pure transition functions. -/
inductive Reachable : Job → Prop where
  | created (data : JobData) (newId : String) (now : Int) (j : Job) :
      createJob data newId now = .ok j → Reachable j
  | started (j : Job) (now : Int) (j2 : Job) :
      Reachable j → startJob j now = .ok j2 → Reachable j2
  | completedStep (j : Job) (res : JobResult) (now : Int) (j2 : Job) :
      Reachable j → completeJob j res now = .ok j2 → Reachable j2
  | failedStep (j : Job) (res : JobResult) (now : Int) (j2 : Job) :
      Reachable j → failJob j res now = .ok j2 → Reachable j2
  | cancelledStep (j : Job) (now : Int) (j2 : Job) :
      Reachable j → cancelJob j now = .ok j2 → Reachable j2

/-- Sample pending job (id "a"), eligible from time 1, used in concrete
witnesses and counterexamples. -/
def jA : Job := { id := "a", status := JobStatus.pending, type := "email", payload := RawPayload.mapping ["to"], config := { delay := 0 }, created_at := 1, eligible_at := 1 }

/-- A different snapshot wearing the same id as `jA`. -/
def jA2 : Job := { id := "a", status := JobStatus.pending, type := "sms", payload := RawPayload.mapping ["to"], config := { delay := 0 }, created_at := 2, eligible_at := 2 }

/-- Sample completed job (id "c"), eligible from time 1. -/
def jC : Job := { id := "c", status := JobStatus.completed, type := "email", payload := RawPayload.mapping ["to"], config := { delay := 0 }, created_at := 1, eligible_at := 1, started_at := some 2, finished_at := some 3, execution_time := some 1, result := some (JobResult.success (JsVal.str "Email sent successfully!") none) }

/-- Sample running job (id "r"), started at time 5. -/
def jR : Job := { id := "r", status := JobStatus.running, type := "webhook", payload := RawPayload.mapping ["url"], config := { delay := 0 }, created_at := 1, eligible_at := 1, started_at := some 5 }

/-- `jA` after being claimed at time 5. -/
def jArun : Job := { jA with status := JobStatus.running, started_at := some 5 }

/-- The snapshot produced by a sample successful creation at time 5. -/
def jNew : Job := { id := "id1", status := JobStatus.pending, type := "email", payload := RawPayload.mapping ["to"], config := { delay := 0 }, created_at := 5, eligible_at := 5 }

/-- Sample running job (id "t") whose type names an `Object.prototype`
member ("toString"), started at time 5. -/
def jT : Job := { id := "t", status := JobStatus.running, type := "toString", payload := RawPayload.mapping ["x"], config := { delay := 0 }, created_at := 1, eligible_at := 1, started_at := some 5 }

/-- The snapshot `executeJob` produces from `jT` on the failure draw with
code index 2 at times 7 (data) and 9 (finish). -/
def jTfail : Job := { jT with status := JobStatus.failed, result := some (JobResult.error (JsVal.inherited "toString") 503 (some ("toString", 7))), execution_time := some 4, finished_at := some 9 }

/-- Sample pending job (id "z") created at clock reading 0. -/
def jZ0 : Job := { id := "z", status := JobStatus.pending, type := "email", payload := RawPayload.mapping ["to"], config := { delay := 0 }, created_at := 0, eligible_at := 0 }

/-- `jZ0` after being claimed at clock reading 0: its `started_at` is the
falsy timestamp `0`. -/
def jZr : Job := { jZ0 with status := JobStatus.running, started_at := some 0 }

/-- The snapshot `completeJob` produces from `jZr` at time 9: the truthiness
check fails on `started_at = 0` and the defensive branch records
`execution_time = 0`. -/
def jZrc : Job := { jZr with status := JobStatus.completed, result := some (JobResult.success (JsVal.str "m") none), execution_time := some 0, finished_at := some 9 }

/-! ## Basic facts about the factory operations -/

theorem startJob_ok_iff {job : Job} {now : Int} {r : Job} :
    startJob job now = .ok r ↔
      job.status = JobStatus.pending ∧ r = { job with status := JobStatus.running, started_at := some now } := by
  unfold startJob
  by_cases h : job.status = JobStatus.pending <;> simp [h, eq_comm]

theorem completeJob_ok_iff {job : Job} {res : JobResult} {now : Int} {jc : Job} :
    completeJob job res now = .ok jc ↔
      job.status = JobStatus.running ∧ jc = { job with status := JobStatus.completed, result := some res, execution_time := some (execTime job now), finished_at := some now } := by
  unfold completeJob
  by_cases h : job.status = JobStatus.running <;> simp [h, eq_comm]

theorem failJob_ok_iff {job : Job} {res : JobResult} {now : Int} {jf : Job} :
    failJob job res now = .ok jf ↔
      job.status = JobStatus.running ∧ jf = { job with status := JobStatus.failed, result := some res, execution_time := some (execTime job now), finished_at := some now } := by
  unfold failJob
  by_cases h : job.status = JobStatus.running <;> simp [h, eq_comm]

theorem cancelJob_ok_iff {job : Job} {now : Int} {jc : Job} :
    cancelJob job now = .ok jc ↔
      job.status = JobStatus.pending ∧ jc = { job with status := JobStatus.cancelled, result := some (JobResult.error (JsVal.str "Job was cancelled") 499 none), finished_at := some now } := by
  unfold cancelJob
  by_cases h : job.status = JobStatus.pending <;> simp [h, eq_comm]

theorem createJob_ok_status {data : JobData} {newId : String} {now : Int} {j : Job}
    (h : createJob data newId now = .ok j) : j.status = JobStatus.pending := by
  unfold createJob at h
  cases hv : validatePayload data.payload with
  | error e => simp [hv, Bind.bind, Except.bind] at h
  | ok u =>
    cases hc : normalizeJobConfig data.config with
    | error e => simp [hv, hc, Bind.bind, Except.bind] at h
    | ok cfg =>
      simp only [hv, hc, Bind.bind, Except.bind, pure, Except.pure, Except.ok.injEq] at h
      rw [← h]

/-! ## Basic facts about the store -/

theorem getJobById_some {jobs : List Job} {i : String} {j : Job}
    (h : getJobById jobs i = some j) : j ∈ jobs ∧ j.id = i := by
  refine ⟨List.mem_of_find?_eq_some h, ?_⟩
  have := List.find?_some h
  simpa using this

theorem hasJob_of_getJobById_some {jobs : List Job} {i : String} {j : Job}
    (h : getJobById jobs i = some j) : hasJob jobs i = true := by
  obtain ⟨hm, hid⟩ := getJobById_some h
  simp only [hasJob, List.any_eq_true]
  exact ⟨j, hm, by simp [hid]⟩

theorem getJobById_replaceById_self {jobs : List Job} {j : Job}
    (h : hasJob jobs j.id = true) :
    getJobById (replaceById jobs j) j.id = some j := by
  induction jobs with
  | nil => simp [hasJob] at h
  | cons k t ih =>
    simp only [getJobById, replaceById, List.map_cons] at ih ⊢
    by_cases hk : k.id = j.id
    · rw [if_pos (by simp [hk])]
      exact List.find?_cons_of_pos _ (by simp)
    · rw [if_neg (by simp [hk])]
      rw [List.find?_cons_of_neg _ (by simp [hk])]
      apply ih
      simp only [hasJob, List.any_cons, Bool.or_eq_true] at h
      rcases h with h | h
      · exact absurd (by simpa using h) hk
      · simpa [hasJob] using h

theorem getJobById_replaceById_ne {jobs : List Job} {j : Job} {i : String}
    (h : j.id ≠ i) :
    getJobById (replaceById jobs j) i = getJobById jobs i := by
  induction jobs with
  | nil => rfl
  | cons k t ih =>
    simp only [getJobById, replaceById, List.map_cons] at ih ⊢
    by_cases hk : k.id = j.id
    · rw [if_pos (by simp [hk])]
      rw [List.find?_cons_of_neg _ (by simp [h]),
        List.find?_cons_of_neg _ (by simp [hk]; exact h)]
      exact ih
    · rw [if_neg (by simp [hk])]
      by_cases hki : k.id = i
      · rw [List.find?_cons_of_pos _ (by simp [hki]), List.find?_cons_of_pos _ (by simp [hki])]
      · rw [List.find?_cons_of_neg _ (by simp [hki]), List.find?_cons_of_neg _ (by simp [hki])]
        exact ih

theorem hasJob_replaceById {jobs : List Job} {j : Job} {i : String} :
    hasJob (replaceById jobs j) i = hasJob jobs i := by
  induction jobs with
  | nil => rfl
  | cons k t ih =>
    simp only [hasJob, replaceById, List.map_cons, List.any_cons] at ih ⊢
    by_cases hk : k.id = j.id
    · rw [if_pos (by simp [hk]), hk, ih]
    · rw [if_neg (by simp [hk]), ih]

theorem getJobById_mapSet_self (jobs : List Job) (j : Job) :
    getJobById (mapSet jobs j) j.id = some j := by
  unfold mapSet
  by_cases h : hasJob jobs j.id = true
  · rw [if_pos h]
    exact getJobById_replaceById_self h
  · rw [if_neg h]
    have hn : getJobById jobs j.id = none := by
      simp only [getJobById]
      refine List.find?_eq_none.mpr ?_
      intro x hx hb
      refine h ?_
      simp only [hasJob, List.any_eq_true]
      exact ⟨x, hx, hb⟩
    simp only [getJobById] at hn ⊢
    rw [List.find?_append, hn]
    simp

theorem getJobById_mapSet_ne {jobs : List Job} {j : Job} {i : String} (h : j.id ≠ i) :
    getJobById (mapSet jobs j) i = getJobById jobs i := by
  unfold mapSet
  by_cases hh : hasJob jobs j.id = true
  · rw [if_pos hh]
    exact getJobById_replaceById_ne h
  · rw [if_neg hh]
    simp only [getJobById, List.find?_append]
    rw [List.find?_cons_of_neg _ (by simp [h])]
    simp

theorem hasJob_mapSet_mono {jobs : List Job} {j : Job} {i : String}
    (h : hasJob jobs i = true) : hasJob (mapSet jobs j) i = true := by
  unfold mapSet
  by_cases hh : hasJob jobs j.id = true
  · rw [if_pos hh, hasJob_replaceById]
    exact h
  · rw [if_neg hh]
    simp only [hasJob, List.any_append] at h ⊢
    simp [h]

theorem updateJob_ok {jobs : List Job} {j : Job} {s2 : List Job}
    (h : updateJob jobs j = .ok s2) :
    hasJob jobs j.id = true ∧ s2 = mapSet jobs j := by
  unfold updateJob at h
  by_cases hh : hasJob jobs j.id = true <;> simp [hh] at h
  exact ⟨by simpa using hh, h.symm⟩

/-! ## The eligibility query: head of the stable sort is the first minimum -/

theorem leCreated_trans : ∀ (a b c : Job), leCreated a b → leCreated b c → leCreated a c := by
  intro a b c hab hbc
  simp only [leCreated, decide_eq_true_eq] at hab hbc ⊢
  omega

theorem leCreated_total : ∀ (a b : Job), leCreated a b || leCreated b a := by
  intro a b
  simp only [leCreated, Bool.or_eq_true, decide_eq_true_eq]
  omega

theorem find?_congrOn {α : Type} {p q : α → Bool} :
    ∀ {l : List α}, (∀ x ∈ l, p x = q x) → l.find? p = l.find? q := by
  intro l h
  induction l with
  | nil => rfl
  | cons a t ih =>
    have ha := h a (by simp)
    cases hq : q a
    · rw [List.find?_cons_of_neg _ (by rw [ha, hq]; simp),
        List.find?_cons_of_neg _ (by rw [hq]; simp)]
      exact ih (fun x hx => h x (by simp [hx]))
    · rw [List.find?_cons_of_pos _ (by rw [ha, hq]), List.find?_cons_of_pos _ (by rw [hq])]

theorem head?_mergeSort_eq_find?_min (l : List Job) :
    (l.mergeSort leCreated).head? = l.find? (fun k => l.all (fun m => leCreated k m)) := by
  induction l with
  | nil => simp
  | cons a t ih =>
    obtain ⟨l₁, l₂, h₁, h₂, h₃⟩ := List.mergeSort_cons leCreated_trans leCreated_total a t
    by_cases ha : (a :: t).all (fun m => leCreated a m) = true
    · have l₁nil : l₁ = [] := by
        cases l₁ with
        | nil => rfl
        | cons b l₁' =>
          exfalso
          have hb : b ∈ List.mergeSort t leCreated := by
            rw [h₂]
            exact List.mem_append_left _ (by simp)
          have hbt : b ∈ t := List.mem_mergeSort.mp hb
          have hab : leCreated a b = true := List.all_eq_true.mp ha b (by simp [hbt])
          have := h₃ b (by simp)
          simp [hab] at this
      rw [h₁, l₁nil, List.nil_append, List.head?_cons]
      simp only [List.find?_cons, ha]
    · have ha2 : ∃ b ∈ t, leCreated a b = false := by
        by_contra hcon
        push_neg at hcon
        refine ha (List.all_eq_true.mpr ?_)
        intro m hm
        rcases List.mem_cons.mp hm with hm | hm
        · subst hm
          simp [leCreated]
        · have := hcon m hm
          cases hlm : leCreated a m
          · exact absurd hlm this
          · rfl
      obtain ⟨b, hbt, hab⟩ := ha2
      have l₁ne : l₁ ≠ [] := by
        intro h0
        subst h0
        simp only [List.nil_append] at h₁ h₂
        have hs := List.sorted_mergeSort leCreated_trans leCreated_total (a :: t)
        rw [h₁] at hs
        have hb2 : b ∈ l₂ := by
          rw [← h₂]
          exact List.mem_mergeSort.mpr hbt
        have : leCreated a b := List.rel_of_pairwise_cons hs hb2
        rw [hab] at this
        exact absurd this (by simp)
      obtain ⟨c, l₁', rfl⟩ := List.exists_cons_of_ne_nil l₁ne
      rw [h₁]
      simp only [List.cons_append, List.head?_cons]
      have hPa : ((a :: t).all fun m => leCreated a m) = false := by
        cases hx : ((a :: t).all fun m => leCreated a m)
        · rfl
        · exact absurd hx ha
      simp only [List.find?_cons, hPa]
      have hagree : ∀ x ∈ t,
          ((a :: t).all fun m => leCreated x m) = (t.all fun m => leCreated x m) := by
        intro x hx
        simp only [List.all_cons]
        cases hPt : t.all (fun m => leCreated x m)
        · simp
        · have hxb : leCreated x b = true := List.all_eq_true.mp hPt b hbt
          have hxa : leCreated x a = true := by
            have h1 : x.created_at ≤ b.created_at := by simpa [leCreated] using hxb
            have h2 : ¬ (a.created_at ≤ b.created_at) := by simpa [leCreated] using hab
            simp only [leCreated, decide_eq_true_eq]
            omega
          simp [hxa]
      rw [find?_congrOn hagree, ← ih, h₂]
      rfl

/-! ## Characterization of `getNextEligibleJob` -/

theorem ifEmpty_head_mergeSort (l : List Job) :
    (if l.isEmpty then none else (l.mergeSort leCreated).head?) =
      l.find? (fun k => l.all (fun m => leCreated k m)) := by
  cases l with
  | nil => rfl
  | cons a t =>
    rw [if_neg (by simp)]
    exact head?_mergeSort_eq_find?_min (a :: t)

theorem getNextEligibleJob_eq_spec (now : Int) (jobs : List Job) :
    getNextEligibleJob now jobs = nextEligibleSpec now jobs := by
  simp only [getNextEligibleJob, nextEligibleSpec]
  exact ifEmpty_head_mergeSort _

theorem getNextEligibleJob_none_iff (now : Int) (jobs : List Job) :
    getNextEligibleJob now jobs = none ↔
      ∀ j ∈ jobs, ¬(j.status = JobStatus.pending ∧ j.eligible_at ≤ now) := by
  simp only [getNextEligibleJob]
  by_cases he : (jobs.filter
      (fun job => job.status == JobStatus.pending && isEligible job now)).isEmpty = true
  · rw [if_pos he]
    have hfe := List.isEmpty_iff.mp he
    have hall := List.filter_eq_nil_iff.mp hfe
    constructor
    · intro _ j hj hprop
      refine hall j hj ?_
      simp [hprop.1, isEligible, hprop.2]
    · intro _
      rfl
  · rw [if_neg he]
    have hne : jobs.filter
        (fun job => job.status == JobStatus.pending && isEligible job now) ≠ [] := by
      intro h0
      exact he (List.isEmpty_iff.mpr h0)
    constructor
    · intro h
      exfalso
      have hms : (jobs.filter
          (fun job => job.status == JobStatus.pending && isEligible job now)).mergeSort
            leCreated = [] := List.head?_eq_none_iff.mp h
      have := congrArg List.length hms
      rw [List.length_mergeSort] at this
      exact hne (List.length_eq_zero.mp this)
    · intro h
      exfalso
      obtain ⟨a, ha⟩ := List.exists_mem_of_ne_nil _ hne
      obtain ⟨haj, hap⟩ := List.mem_filter.mp ha
      have : a.status = JobStatus.pending ∧ a.eligible_at ≤ now := by
        simpa [isEligible] using hap
      exact h a haj this

theorem getNextEligibleJob_some {now : Int} {jobs : List Job} {j : Job}
    (h : getNextEligibleJob now jobs = some j) :
    j ∈ jobs ∧ j.status = JobStatus.pending ∧ j.eligible_at ≤ now ∧
      ∀ k ∈ jobs, k.status = JobStatus.pending → k.eligible_at ≤ now →
        j.created_at ≤ k.created_at := by
  rw [getNextEligibleJob_eq_spec] at h
  simp only [nextEligibleSpec] at h
  have hpred := List.find?_some h
  have hmem := List.mem_of_find?_eq_some h
  obtain ⟨hj, hp⟩ := List.mem_filter.mp hmem
  have hp' : j.status = JobStatus.pending ∧ j.eligible_at ≤ now := by
    simpa [isEligible] using hp
  refine ⟨hj, hp'.1, hp'.2, ?_⟩
  intro k hk hk1 hk2
  have hkf : k ∈ jobs.filter
      (fun job => job.status == JobStatus.pending && isEligible job now) := by
    refine List.mem_filter.mpr ⟨hk, ?_⟩
    simp [hk1, isEligible, hk2]
  have := List.all_eq_true.mp hpred k hkf
  simpa [leCreated] using this

/-! ## Invariants of the scheduler model -/

theorem startJob_ok_fields {job : Job} {now : Int} {r : Job}
    (h : startJob job now = .ok r) :
    r.id = job.id ∧ r.status = JobStatus.running ∧ job.status = JobStatus.pending ∧
      r.started_at = some now := by
  obtain ⟨hp, hr⟩ := startJob_ok_iff.mp h
  subst hr
  exact ⟨rfl, rfl, hp, rfl⟩

theorem executeJob_ok_facts {r : Job} {draw : Bool} {idx : Fin 4} {tsData nowFin : Int}
    {f : Job} (h : executeJob r draw idx tsData nowFin = .ok f) :
    f.id = r.id ∧ (f.status = JobStatus.completed ∨ f.status = JobStatus.failed) := by
  unfold executeJob at h
  cases draw with
  | true =>
    rw [if_pos rfl] at h
    obtain ⟨_, hf⟩ := failJob_ok_iff.mp h
    subst hf
    exact ⟨rfl, Or.inr rfl⟩
  | false =>
    rw [if_neg (by simp)] at h
    obtain ⟨_, hf⟩ := completeJob_ok_iff.mp h
    subst hf
    exact ⟨rfl, Or.inl rfl⟩

theorem cancelJob_ok_fields {job : Job} {now : Int} {c : Job}
    (h : cancelJob job now = .ok c) :
    c.id = job.id ∧ c.status = JobStatus.cancelled ∧ job.status = JobStatus.pending := by
  obtain ⟨hp, hc⟩ := cancelJob_ok_iff.mp h
  subst hc
  exact ⟨rfl, rfl, hp⟩

theorem save_eq_mapSet (s : List Job) (j : Job) : save s j = mapSet s j := by
  unfold save addJob
  split <;> rfl

theorem ClaimedDone_mapSet {s : List Job} {j : Job} {i : String}
    (hj : j.status ≠ JobStatus.pending) (h : ClaimedDone s i) :
    ClaimedDone (mapSet s j) i := by
  by_cases hid : j.id = i
  · subst hid
    exact ⟨j, getJobById_mapSet_self s j, hj⟩
  · obtain ⟨x, hx1, hx2⟩ := h
    exact ⟨x, by rw [getJobById_mapSet_ne hid]; exact hx1, hx2⟩

theorem ClaimedDone_newId {s : List Job} {j : Job} {i : String}
    (hnew : hasJob s j.id = false) (h : ClaimedDone s i) :
    ClaimedDone (mapSet s j) i := by
  obtain ⟨x, hx1, hx2⟩ := h
  have hi : hasJob s i = true := hasJob_of_getJobById_some hx1
  have hid : j.id ≠ i := by
    intro he
    rw [he, hi] at hnew
    cases hnew
  exact ⟨x, by rw [getJobById_mapSet_ne hid]; exact hx1, hx2⟩

theorem SchedStep_claimedDone {s : List Job} {l : List String} {s2 : List Job} {i : String}
    (hs : SchedStep s l s2) (h : ClaimedDone s i) : ClaimedDone s2 i := by
  cases hs with
  | tickNone now s _ => exact h
  | tickClaim now s job r s2 hnext hstart hupd =>
    obtain ⟨_, rfl⟩ := updateJob_ok hupd
    obtain ⟨_, hrs, _, _⟩ := startJob_ok_fields hstart
    exact ClaimedDone_mapSet (by rw [hrs]; simp) h
  | tickResolve s r draw idx tsData nowFin f s2 hexec hupd =>
    obtain ⟨_, rfl⟩ := updateJob_ok hupd
    obtain ⟨_, hfs⟩ := executeJob_ok_facts hexec
    refine ClaimedDone_mapSet ?_ h
    rcases hfs with hfs | hfs <;> rw [hfs] <;> simp
  | submitNew s j hnew hp =>
    rw [save_eq_mapSet]
    exact ClaimedDone_newId hnew h
  | cancelReq s i0 j c now s2 hget hcancel hupd =>
    obtain ⟨_, rfl⟩ := updateJob_ok hupd
    obtain ⟨_, hcs, _⟩ := cancelJob_ok_fields hcancel
    exact ClaimedDone_mapSet (by rw [hcs]; simp) h
  | byIdClaim s i0 job r nowElig now s2 hget helig hstart hupd =>
    obtain ⟨_, rfl⟩ := updateJob_ok hupd
    obtain ⟨_, hrs, _, _⟩ := startJob_ok_fields hstart
    exact ClaimedDone_mapSet (by rw [hrs]; simp) h

theorem hasJob_eq_true_iff {s : List Job} {i : String} :
    hasJob s i = true ↔ i ∈ s.map (fun k => k.id) := by
  simp [hasJob, List.any_eq_true, List.mem_map]

theorem idsNodup_mapSet {s : List Job} {j : Job} (h : idsNodup s) :
    idsNodup (mapSet s j) := by
  unfold mapSet
  by_cases hh : hasJob s j.id = true
  · rw [if_pos hh]
    unfold idsNodup at h ⊢
    unfold replaceById
    rw [List.map_map]
    have : s.map ((fun k => k.id) ∘ fun k => if k.id == j.id then j else k) =
        s.map (fun k => k.id) := by
      apply List.map_congr_left
      intro k hk
      by_cases hkj : k.id = j.id <;> simp [hkj]
    rw [this]
    exact h
  · rw [if_neg hh]
    unfold idsNodup at h ⊢
    rw [List.map_append]
    refine List.Nodup.append h (by simp) ?_
    intro a ha hb
    simp only [List.map_cons, List.map_nil, List.mem_singleton] at hb
    subst hb
    exact hh (hasJob_eq_true_iff.mpr ha)

theorem SchedStep_idsNodup {s : List Job} {l : List String} {s2 : List Job}
    (hs : SchedStep s l s2) (h : idsNodup s) : idsNodup s2 := by
  cases hs with
  | tickNone now s _ => exact h
  | tickClaim now s job r s2 hnext hstart hupd =>
    obtain ⟨_, rfl⟩ := updateJob_ok hupd
    exact idsNodup_mapSet h
  | tickResolve s r draw idx tsData nowFin f s2 hexec hupd =>
    obtain ⟨_, rfl⟩ := updateJob_ok hupd
    exact idsNodup_mapSet h
  | submitNew s j hnew hp =>
    rw [save_eq_mapSet]
    exact idsNodup_mapSet h
  | cancelReq s i0 j c now s2 hget hcancel hupd =>
    obtain ⟨_, rfl⟩ := updateJob_ok hupd
    exact idsNodup_mapSet h
  | byIdClaim s i0 job r nowElig now s2 hget helig hstart hupd =>
    obtain ⟨_, rfl⟩ := updateJob_ok hupd
    exact idsNodup_mapSet h

theorem getJobById_of_mem_nodup {s : List Job} {j : Job}
    (hn : idsNodup s) (hm : j ∈ s) : getJobById s j.id = some j := by
  induction s with
  | nil => cases hm
  | cons k t ih =>
    unfold getJobById
    rcases List.mem_cons.mp hm with rfl | hmt
    · exact List.find?_cons_of_pos _ (by simp)
    · have hk : k.id ≠ j.id := by
        unfold idsNodup at hn
        simp only [List.map_cons, List.nodup_cons] at hn
        intro he
        exact hn.1 (he ▸ List.mem_map_of_mem (fun k => k.id) hmt)
      rw [List.find?_cons_of_neg _ (by simp [hk])]
      refine ih ?_ hmt
      unfold idsNodup at hn ⊢
      simp only [List.map_cons, List.nodup_cons] at hn
      exact hn.2

theorem SchedStep_label_claimedDone_after {s : List Job} {l : List String}
    {s2 : List Job} {i : String} (hs : SchedStep s l s2) (hi : i ∈ l) :
    ClaimedDone s2 i := by
  cases hs with
  | tickNone now s _ => cases hi
  | tickClaim now s job r s2 hnext hstart hupd =>
    obtain ⟨_, rfl⟩ := updateJob_ok hupd
    obtain ⟨hrid, hrs, _, _⟩ := startJob_ok_fields hstart
    have : i = job.id := by simpa using hi
    subst this
    refine ⟨r, ?_, by rw [hrs]; simp⟩
    rw [← hrid]
    exact getJobById_mapSet_self s r
  | tickResolve s r draw idx tsData nowFin f s2 hexec hupd => cases hi
  | submitNew s j hnew hp => cases hi
  | cancelReq s i0 j c now s2 hget hcancel hupd => cases hi
  | byIdClaim s i0 job r nowElig now s2 hget helig hstart hupd =>
    obtain ⟨_, rfl⟩ := updateJob_ok hupd
    obtain ⟨hrid, hrs, _, _⟩ := startJob_ok_fields hstart
    have : i = job.id := by simpa using hi
    subst this
    refine ⟨r, ?_, by rw [hrs]; simp⟩
    rw [← hrid]
    exact getJobById_mapSet_self s r

theorem SchedStep_label_not_claimedDone_before {s : List Job} {l : List String}
    {s2 : List Job} {i : String} (hs : SchedStep s l s2) (hn : idsNodup s)
    (hi : i ∈ l) : ¬ ClaimedDone s i := by
  cases hs with
  | tickNone now s _ => cases hi
  | tickClaim now s job r s2 hnext hstart hupd =>
    have : i = job.id := by simpa using hi
    subst this
    obtain ⟨hmem, hpend, _, _⟩ := getNextEligibleJob_some hnext
    rintro ⟨x, hx1, hx2⟩
    rw [getJobById_of_mem_nodup hn hmem] at hx1
    cases hx1
    exact hx2 hpend
  | tickResolve s r draw idx tsData nowFin f s2 hexec hupd => cases hi
  | submitNew s j hnew hp => cases hi
  | cancelReq s i0 j c now s2 hget hcancel hupd => cases hi
  | byIdClaim s i0 job r nowElig now s2 hget helig hstart hupd =>
    have : i = job.id := by simpa using hi
    subst this
    obtain ⟨_, _, hpend, _⟩ := startJob_ok_fields hstart
    have hji : job.id = i0 := (getJobById_some hget).2
    rintro ⟨x, hx1, hx2⟩
    rw [hji, hget] at hx1
    cases hx1
    exact hx2 hpend

theorem Run_claimedDone_not_mem {s : List Job} {tr : List String} {s2 : List Job}
    {i : String} (hr : Run s tr s2) : idsNodup s → ClaimedDone s i → i ∉ tr := by
  induction hr with
  | nil s => intro _ _; simp
  | cons s l s2 tr s3 hstep hrun ih =>
    intro hn h hmem
    rcases List.mem_append.mp hmem with hl | htr
    · exact SchedStep_label_not_claimedDone_before hstep hn hl h
    · exact ih (SchedStep_idsNodup hstep hn) (SchedStep_claimedDone hstep h) htr

theorem Run_labels_nodup {s : List Job} {tr : List String} {s2 : List Job}
    (hr : Run s tr s2) : idsNodup s → tr.Nodup := by
  induction hr with
  | nil s => intro _; exact List.nodup_nil
  | cons s l s2 tr s3 hstep hrun ih =>
    intro hn
    have hln : l.Nodup := by cases hstep <;> simp
    have htrn : tr.Nodup := ih (SchedStep_idsNodup hstep hn)
    refine List.Nodup.append hln htrn ?_
    intro a ha hatr
    have h2 := SchedStep_label_claimedDone_after hstep ha
    exact Run_claimedDone_not_mem hrun (SchedStep_idsNodup hstep hn) h2 hatr

/-! ## The executor and `processJobById` -/

theorem executeJob_ok_strong {r : Job} (hr : r.status = JobStatus.running)
    (draw : Bool) (idx : Fin 4) (tsData nowFin : Int) :
    ∃ f, executeJob r draw idx tsData nowFin = .ok f ∧ f.id = r.id ∧
      f.finished_at = some nowFin ∧
      (draw = true → f.status = JobStatus.failed ∧
        f.result = some (JobResult.error (generateFailureMessage r.type)
          (generateErrorCode idx) (some (r.type, tsData)))) ∧
      (draw = false → f.status = JobStatus.completed ∧
        f.result = some (JobResult.success (generateSuccessMessage r.type)
          (some (r.type, tsData)))) := by
  cases draw with
  | true =>
    refine ⟨{ r with status := JobStatus.failed, result := some (JobResult.error (generateFailureMessage r.type) (generateErrorCode idx) (some (r.type, tsData))), execution_time := some (execTime r nowFin), finished_at := some nowFin }, ?_, rfl, rfl, ?_, ?_⟩
    · unfold executeJob
      rw [if_pos rfl]
      exact failJob_ok_iff.mpr ⟨hr, rfl⟩
    · intro _
      exact ⟨rfl, rfl⟩
    · intro hfalse
      cases hfalse
  | false =>
    refine ⟨{ r with status := JobStatus.completed, result := some (JobResult.success (generateSuccessMessage r.type) (some (r.type, tsData))), execution_time := some (execTime r nowFin), finished_at := some nowFin }, ?_, rfl, rfl, ?_, ?_⟩
    · unfold executeJob
      rw [if_neg (by simp)]
      exact completeJob_ok_iff.mpr ⟨hr, rfl⟩
    · intro htrue
      cases htrue
    · intro _
      exact ⟨rfl, rfl⟩

theorem processJobById_not_found {jobs : List Job} {jobId : String} (draw : Bool)
    (idx : Fin 4) (nowElig nowStart tsData nowFin : Int)
    (h : getJobById jobs jobId = none) :
    processJobById jobs jobId draw idx nowElig nowStart tsData nowFin =
      .error ("Job with id " ++ jobId ++ " not found") := by
  unfold processJobById
  rw [h]

theorem processJobById_not_eligible {jobs : List Job} {jobId : String} {job : Job}
    (draw : Bool) (idx : Fin 4) {nowElig : Int} (nowStart tsData nowFin : Int)
    (h : getJobById jobs jobId = some job) (he : isEligible job nowElig = false) :
    processJobById jobs jobId draw idx nowElig nowStart tsData nowFin =
      .error ("Job " ++ jobId ++ " is not eligible yet (delay not fulfilled)") := by
  unfold processJobById
  rw [h]
  simp [he]

theorem processJobById_ok {jobs : List Job} {jobId : String} {job : Job}
    (draw : Bool) (idx : Fin 4) {nowElig : Int} (nowStart tsData nowFin : Int)
    (h : getJobById jobs jobId = some job) (he : isEligible job nowElig = true)
    (hp : job.status = JobStatus.pending) :
    ∃ f s2, processJobById jobs jobId draw idx nowElig nowStart tsData nowFin =
        .ok (f, s2) ∧ f.id = job.id ∧
      (f.status = JobStatus.completed ∨ f.status = JobStatus.failed) ∧
      f.finished_at = some nowFin := by
  have hhas : hasJob jobs job.id = true := by
    have hj := hasJob_of_getJobById_some h
    rwa [(getJobById_some h).2]
  obtain ⟨rJob, hstart⟩ : ∃ r, startJob job nowStart = .ok r :=
    ⟨_, startJob_ok_iff.mpr ⟨hp, rfl⟩⟩
  obtain ⟨hrid, hrstat, _, _⟩ := startJob_ok_fields hstart
  have hupd1 : updateJob jobs rJob = .ok (mapSet jobs rJob) := by
    unfold updateJob
    rw [if_pos (by rw [hrid]; exact hhas)]
  obtain ⟨f, hexec, hfid, hffin, _, _⟩ := executeJob_ok_strong hrstat draw idx tsData nowFin
  have hfid2 : f.id = job.id := by rw [hfid, hrid]
  have hupd2 : updateJob (mapSet jobs rJob) f = .ok (mapSet (mapSet jobs rJob) f) := by
    unfold updateJob
    rw [if_pos (by rw [hfid2, ← hrid]; exact hasJob_mapSet_mono (by rw [hrid]; exact hhas))]
  obtain ⟨_, hfstat⟩ := executeJob_ok_facts hexec
  refine ⟨f, mapSet (mapSet jobs rJob) f, ?_, hfid2, hfstat, hffin⟩
  unfold processJobById
  rw [h]
  simp only [he, Bool.not_true, Bool.false_eq_true, if_false, Bind.bind, Except.bind,
    hstart, hupd1, hexec, hupd2]
  rfl

/-! ## Snapshots reachable through the factory -/

theorem reachable_running_started {j : Job} (h : Reachable j) :
    j.status = JobStatus.running → ∃ s, j.started_at = some s := by
  induction h with
  | created data newId now j hc =>
    intro hr
    rw [createJob_ok_status hc] at hr
    cases hr
  | started j now j2 hre hs ih =>
    intro _
    obtain ⟨_, _, _, hsa⟩ := startJob_ok_fields hs
    exact ⟨now, hsa⟩
  | completedStep j res now j2 hre hc ih =>
    intro hr
    obtain ⟨_, hj2⟩ := completeJob_ok_iff.mp hc
    subst hj2
    cases hr
  | failedStep j res now j2 hre hf ih =>
    intro hr
    obtain ⟨_, hj2⟩ := failJob_ok_iff.mp hf
    subst hj2
    cases hr
  | cancelledStep j now j2 hre hc ih =>
    intro hr
    obtain ⟨_, hj2⟩ := cancelJob_ok_iff.mp hc
    subst hj2
    cases hr

/-! ## Characterization of `createJob` -/

theorem normalizeJobConfig_eq (config : Option JobConfigIn) :
    normalizeJobConfig config =
      if requestedDelay config < 0 then .error "Delay must be a non-negative number"
      else .ok { delay := requestedDelay config } := by
  unfold normalizeJobConfig requestedDelay
  cases config <;> rfl

theorem createJob_error_iff {data : JobData} {newId : String} {now : Int} :
    (∃ e, createJob data newId now = .error e) ↔
      (data.payload = RawPayload.missing ∨ data.payload = RawPayload.notMapping ∨
        data.payload = RawPayload.mapping [] ∨ requestedDelay data.config < 0) := by
  unfold createJob
  cases hpay : data.payload with
  | missing =>
    simp [validatePayload, Bind.bind, Except.bind]
  | notMapping =>
    simp [validatePayload, Bind.bind, Except.bind]
  | mapping keys =>
    cases keys with
    | nil =>
      simp [validatePayload, Bind.bind, Except.bind]
    | cons a t =>
      rw [normalizeJobConfig_eq]
      by_cases hd : requestedDelay data.config < 0
      · simp [validatePayload, Bind.bind, Except.bind, hd]
      · simp [validatePayload, Bind.bind, Except.bind, hd, pure, Except.pure]

theorem createJob_ok_fields {data : JobData} {newId : String} {now : Int} {j : Job}
    (h : createJob data newId now = .ok j) :
    j.status = JobStatus.pending ∧ j.created_at = now ∧
      j.config.delay = requestedDelay data.config ∧
      0 ≤ requestedDelay data.config ∧
      j.eligible_at = j.created_at + j.config.delay ∧
      j.id = newId ∧ j.type = data.type ∧ j.payload = data.payload := by
  unfold createJob at h
  cases hv : validatePayload data.payload with
  | error e => simp [hv, Bind.bind, Except.bind] at h
  | ok u =>
    rw [normalizeJobConfig_eq] at h
    by_cases hd : requestedDelay data.config < 0
    · simp [hv, Bind.bind, Except.bind, hd] at h
    · simp only [hv, Bind.bind, Except.bind, hd, if_false, pure, Except.pure,
        Except.ok.injEq] at h
      subst h
      refine ⟨rfl, rfl, rfl, by omega, rfl, rfl, rfl, rfl⟩

/-! ## The claims -/

/-- Claim C1: for every store state and current time, `getNextEligibleJob`
returns absent exactly when no stored job has status Pending and
`eligible_at <= now`; otherwise it returns, among all Pending eligible jobs,
the one with the smallest `created_at`, breaking ties on `created_at` by
insertion order into the store (it coincides with the spec-side
first-minimum selection `nextEligibleSpec`); it never returns a job whose
status is not Pending or whose `eligible_at` exceeds `now`. -/
theorem C1_nextEligible (now : Int) (jobs : List Job) :
    getNextEligibleJob now jobs = nextEligibleSpec now jobs ∧
    (getNextEligibleJob now jobs = none ↔
      ∀ j ∈ jobs, ¬(j.status = JobStatus.pending ∧ j.eligible_at ≤ now)) ∧
    (∀ j, getNextEligibleJob now jobs = some j →
      j ∈ jobs ∧ j.status = JobStatus.pending ∧ j.eligible_at ≤ now ∧
        ∀ k ∈ jobs, k.status = JobStatus.pending → k.eligible_at ≤ now →
          j.created_at ≤ k.created_at) :=
  ⟨getNextEligibleJob_eq_spec now jobs, getNextEligibleJob_none_iff now jobs,
    fun _ h => getNextEligibleJob_some h⟩

/-- Witness for C1 at a concrete store: the singleton store around the
pending eligible `jA` yields `jA`, which is Pending and eligible. -/
theorem C1_nextEligible_witness :
    getNextEligibleJob 5 [jA] = some jA ∧ jA.status = JobStatus.pending ∧
      jA.eligible_at ≤ 5 := by
  have hg : getNextEligibleJob 5 [jA] = some jA := by
    rw [getNextEligibleJob_eq_spec]
    decide
  obtain ⟨_, hp, he, _⟩ := (C1_nextEligible 5 [jA]).2.2 jA hg
  exact ⟨hg, hp, he⟩

/-- Claim C2: in the single-threaded cooperative runtime — modelled by the
`SchedStep` relation, in which the read-then-write claim of
`processNextJob` / `processJobById` is one atomic step because no `await`
separates the read of `getNextEligibleJob` from the write of the Running
snapshot — every reachable execution claims each job at most once: the list
of claimed ids of any run from a store with unique ids has no duplicates, so
no job undergoes Pending→Running twice and none is handed to the executor
twice. -/
theorem C2_no_double_claim {s : List Job} {tr : List String} {s2 : List Job}
    (hn : idsNodup s) (hr : Run s tr s2) : tr.Nodup :=
  Run_labels_nodup hr hn

/-- Witness for C2: a concrete one-tick run claiming `jA` from the singleton
store; its claim-label list is duplicate-free. -/
theorem C2_no_double_claim_witness :
    ∃ s2, Run [jA] ["a"] s2 ∧ (["a"] : List String).Nodup := by
  have hnext : getNextEligibleJob 5 [jA] = some jA := by
    rw [getNextEligibleJob_eq_spec]
    decide
  have hstart : startJob jA 5 = .ok jArun := by decide
  have hupd : updateJob [jA] jArun = .ok [jArun] := by decide
  have hrun : Run [jA] ([jA.id] ++ []) [jArun] :=
    Run.cons _ _ _ _ _ (SchedStep.tickClaim 5 [jA] jA jArun [jArun] hnext hstart hupd)
      (Run.nil _)
  exact ⟨[jArun], hrun, C2_no_double_claim (by unfold idsNodup; decide) hrun⟩

/-- Counterexample to Claim C3 as stated: the store's insert does not fail
when the id is already present — `addJob` is `Map.set` and overwrites.  With
`jA` stored under id "a", inserting the different snapshot `jA2` (same id)
succeeds and replaces the stored snapshot. -/
theorem C3_insert_counterexample :
    addJob [jA] jA2 = [jA2] ∧ jA2 ≠ jA ∧
      getJobById (addJob [jA] jA2) "a" = some jA2 := by
  exact ⟨by decide, by decide, by decide⟩

/-- Claim C3 (amended): for every store state and every job whose id is
already present, the store's insert succeeds and overwrites the snapshot
stored under that id in place (the store keeps its size), and the
repository's `save` behaves identically to `addJob` there (it updates the
existing entry rather than failing). -/
theorem C3_insert_overwrites {jobs : List Job} {j : Job}
    (h : hasJob jobs j.id = true) :
    getJobById (addJob jobs j) j.id = some j ∧
      (addJob jobs j).length = jobs.length ∧ save jobs j = addJob jobs j := by
  refine ⟨getJobById_mapSet_self jobs j, ?_, ?_⟩
  · unfold addJob mapSet
    rw [if_pos h]
    unfold replaceById
    exact List.length_map _ _
  · rw [save_eq_mapSet]
    rfl

/-- Witness for the amended C3 at a concrete store. -/
theorem C3_insert_overwrites_witness :
    getJobById (addJob [jA] jA2) jA2.id = some jA2 ∧
      (addJob [jA] jA2).length = [jA].length ∧ save [jA] jA2 = addJob [jA] jA2 := by
  obtain ⟨h1, h2, h3⟩ := @C3_insert_overwrites [jA] jA2 (by decide)
  exact ⟨h1, h2, h3⟩

/-- Counterexample to Claim C4 as stated: a job that is present and eligible
but not Pending is not driven to a terminal snapshot — `processJobById`
raises the InvalidTransition error of `startJob` instead.  Here the stored
job `jC` is Completed and eligible at time 5. -/
theorem C4_processById_counterexample :
    isEligible jC 5 = true ∧ jC.status ≠ JobStatus.pending ∧
      processJobById [jC] "c" false 0 5 6 7 8 =
        .error "Cannot start job in completed status" := by
  exact ⟨by decide, by decide, by decide⟩

/-- Claim C4 (amended): `processJobById` fails with the NotFound error when
the id is absent and with the NotEligible error when the job's delay has not
elapsed; for every job that is present, eligible, and Pending, it performs
the claim and the execution inline and returns the terminal snapshot
(Completed or Failed) without raising.  (As stated the claim omitted
"Pending": a present, eligible job in any other status makes the inline
`startJob` raise InvalidTransition.) -/
theorem C4_processById (jobs : List Job) (jobId : String) (draw : Bool) (idx : Fin 4)
    (nowElig nowStart tsData nowFin : Int) :
    (getJobById jobs jobId = none →
      processJobById jobs jobId draw idx nowElig nowStart tsData nowFin =
        .error ("Job with id " ++ jobId ++ " not found")) ∧
    (∀ job, getJobById jobs jobId = some job → isEligible job nowElig = false →
      processJobById jobs jobId draw idx nowElig nowStart tsData nowFin =
        .error ("Job " ++ jobId ++ " is not eligible yet (delay not fulfilled)")) ∧
    (∀ job, getJobById jobs jobId = some job → isEligible job nowElig = true →
      job.status = JobStatus.pending →
      ∃ f s2, processJobById jobs jobId draw idx nowElig nowStart tsData nowFin =
          .ok (f, s2) ∧ f.id = job.id ∧
        (f.status = JobStatus.completed ∨ f.status = JobStatus.failed) ∧
        f.finished_at = some nowFin) :=
  ⟨fun h => processJobById_not_found draw idx nowElig nowStart tsData nowFin h,
   fun _ h he => processJobById_not_eligible draw idx nowStart tsData nowFin h he,
   fun _ h he hp => processJobById_ok draw idx nowStart tsData nowFin h he hp⟩

/-- Witness for the amended C4: processing the pending eligible `jA` inline
returns a terminal snapshot, and the two failure modes fire on a missing id
and on a not-yet-eligible job. -/
theorem C4_processById_witness :
    (∃ f s2, processJobById [jA] "a" false 0 5 6 7 8 = .ok (f, s2) ∧
      (f.status = JobStatus.completed ∨ f.status = JobStatus.failed)) ∧
    processJobById [jA] "zz" false 0 5 6 7 8 = .error "Job with id zz not found" ∧
    processJobById [jA] "a" false 0 0 6 7 8 =
      .error "Job a is not eligible yet (delay not fulfilled)" := by
  obtain ⟨f, s2, h1, _, h3, _⟩ :=
    (C4_processById [jA] "a" false 0 5 6 7 8).2.2 jA (by decide) (by decide) (by decide)
  have h4 := (C4_processById [jA] "zz" false 0 5 6 7 8).1 (by decide)
  have h5 := (C4_processById [jA] "a" false 0 0 6 7 8).2.1 jA (by decide) (by decide)
  exact ⟨⟨f, s2, h1, h3⟩, h4.trans (by decide), h5.trans (by decide)⟩

/-- Claim C5: calling `startJob` on a job whose status is not Pending, or
`completeJob`/`failJob` on a job whose status is not Running, fails with the
InvalidTransition error whose message names the job's current status.  The
transition functions are pure: on rejection they return only the error, so
the input snapshot is untouched (no field is mutated). -/
theorem C5_invalid_transition (job : Job) (res : JobResult) (now : Int) :
    (job.status ≠ JobStatus.pending →
      startJob job now =
        .error ("Cannot start job in " ++ statusStr job.status ++ " status")) ∧
    (job.status ≠ JobStatus.running →
      completeJob job res now =
        .error ("Cannot complete job in " ++ statusStr job.status ++ " status")) ∧
    (job.status ≠ JobStatus.running →
      failJob job res now =
        .error ("Cannot fail job in " ++ statusStr job.status ++ " status")) := by
  refine ⟨?_, ?_, ?_⟩ <;> intro h
  · unfold startJob
    rw [if_pos h]
  · unfold completeJob
    rw [if_pos h]
  · unfold failJob
    rw [if_pos h]

/-- Witness for C5: starting a Completed job and completing/failing a
Pending job are rejected with messages naming those statuses. -/
theorem C5_invalid_transition_witness :
    startJob jC 9 = .error "Cannot start job in completed status" ∧
    completeJob jA (JobResult.success (JsVal.str "m") none) 9 =
      .error "Cannot complete job in pending status" ∧
    failJob jA (JobResult.success (JsVal.str "m") none) 9 =
      .error "Cannot fail job in pending status" := by
  obtain ⟨h1, _, _⟩ := C5_invalid_transition jC (JobResult.success (JsVal.str "m") none) 9
  obtain ⟨_, h2, h3⟩ := C5_invalid_transition jA (JobResult.success (JsVal.str "m") none) 9
  exact ⟨(h1 (by decide)).trans (by decide), (h2 (by decide)).trans (by decide),
    (h3 (by decide)).trans (by decide)⟩

/-- Claim C6: `createJob` fails if and only if the payload is missing, not a
mapping, or an empty mapping, or the effective delay (`config?.delay ?? 0`)
is negative; on success the snapshot is Pending with
`eligible_at = created_at + delay`, so `eligible_at >= created_at` always
holds for created jobs. -/
theorem C6_create (data : JobData) (newId : String) (now : Int) :
    ((∃ e, createJob data newId now = .error e) ↔
      (data.payload = RawPayload.missing ∨ data.payload = RawPayload.notMapping ∨
        data.payload = RawPayload.mapping [] ∨ requestedDelay data.config < 0)) ∧
    (∀ j, createJob data newId now = .ok j →
      j.status = JobStatus.pending ∧ j.created_at = now ∧
        j.eligible_at = j.created_at + requestedDelay data.config ∧
        j.created_at ≤ j.eligible_at) := by
  refine ⟨createJob_error_iff, ?_⟩
  intro j h
  obtain ⟨h1, h2, h3, h4, h5, _⟩ := createJob_ok_fields h
  exact ⟨h1, h2, by rw [h5, h3], by rw [h5, h3]; omega⟩

/-- Witness for C6: a valid submission at time 5 yields the Pending snapshot
`jNew` with `eligible_at = created_at`; a missing payload is rejected. -/
theorem C6_create_witness :
    createJob ⟨"email", RawPayload.mapping ["to"], none⟩ "id1" 5 = .ok jNew ∧
    jNew.status = JobStatus.pending ∧ jNew.created_at ≤ jNew.eligible_at ∧
    (∃ e, createJob ⟨"email", RawPayload.missing, none⟩ "id2" 5 = .error e) := by
  have h2 := (C6_create ⟨"email", RawPayload.mapping ["to"], none⟩ "id1" 5).2 jNew
    (by decide)
  have h1 := (C6_create ⟨"email", RawPayload.missing, none⟩ "id2" 5).1.mpr (Or.inl rfl)
  exact ⟨by decide, h2.1, h2.2.2.2, h1⟩

/-- Claim C7: `cancelJob` succeeds exactly from Pending: the returned
snapshot is Cancelled with the fixed result (message "Job was cancelled",
code 499) and `finished_at` set; from any other status it fails with the
InvalidTransition error naming the current status. -/
theorem C7_cancel (job : Job) (now : Int) :
    (job.status = JobStatus.pending →
      ∃ j2, cancelJob job now = .ok j2 ∧ j2.status = JobStatus.cancelled ∧
        j2.result = some (JobResult.error (JsVal.str "Job was cancelled") 499 none) ∧
        j2.finished_at = some now) ∧
    (job.status ≠ JobStatus.pending →
      cancelJob job now =
        .error ("Cannot cancel job in " ++ statusStr job.status ++ " status")) := by
  constructor
  · intro hp
    exact ⟨_, cancelJob_ok_iff.mpr ⟨hp, rfl⟩, rfl, rfl, rfl⟩
  · intro hp
    unfold cancelJob
    rw [if_pos hp]

/-- Witness for C7: cancelling the pending `jA` yields a Cancelled snapshot
with the fixed 499 result; cancelling the completed `jC` is rejected. -/
theorem C7_cancel_witness :
    (∃ j2, cancelJob jA 9 = .ok j2 ∧ j2.status = JobStatus.cancelled ∧
      j2.result = some (JobResult.error (JsVal.str "Job was cancelled") 499 none) ∧
      j2.finished_at = some 9) ∧
    cancelJob jC 9 = .error "Cannot cancel job in completed status" := by
  refine ⟨(C7_cancel jA 9).1 (by decide), ((C7_cancel jC 9).2 (by decide)).trans (by decide)⟩

/-- Counterexample to Claim C8 as stated: the truthiness check
`job.started_at ? now - job.started_at : 0` treats the timestamp `0` as
falsy, so the running `jZr` with `started_at = some 0`, completed at time 9,
records `execution_time = 0` and not `finished_at - started_at = 9`. -/
theorem C8_execution_time_counterexample :
    jZr.status = JobStatus.running ∧ jZr.started_at = some 0 ∧
      completeJob jZr (JobResult.success (JsVal.str "m") none) 9 = .ok jZrc ∧
      jZrc.finished_at = some 9 ∧ jZrc.execution_time = some 0 ∧
      (0 : Int) ≠ 9 - 0 := by
  exact ⟨by decide, by decide, by decide, by decide, by decide, by decide⟩

/-- Claim C8 (amended): for every Running job with `started_at` defined and
nonzero, `completeJob` and `failJob` derive `finished_at` and
`execution_time` from the single clock reading `now` passed to the
operation (the embedding of the one `Date.now()` call): the returned
snapshot satisfies `execution_time = now - started_at` and
`finished_at = now`, hence `execution_time = finished_at - started_at`.
(As stated the claim covered every defined `started_at`: the timestamp `0`
is falsy in JavaScript, so a job started exactly at clock reading 0 takes
the defensive branch and records `execution_time = 0` instead.) -/
theorem C8_execution_time (job : Job) (s : Int) (res : JobResult) (now : Int)
    (hr : job.status = JobStatus.running) (hs : job.started_at = some s)
    (hz : s ≠ 0) :
    (∃ jc, completeJob job res now = .ok jc ∧ jc.started_at = some s ∧
      jc.finished_at = some now ∧ jc.execution_time = some (now - s)) ∧
    (∃ jf, failJob job res now = .ok jf ∧ jf.started_at = some s ∧
      jf.finished_at = some now ∧ jf.execution_time = some (now - s)) := by
  constructor
  · refine ⟨_, completeJob_ok_iff.mpr ⟨hr, rfl⟩, hs, rfl, ?_⟩
    show some (execTime job now) = some (now - s)
    unfold execTime
    rw [hs]
    show some (if s = 0 then 0 else now - s) = some (now - s)
    rw [if_neg hz]
  · refine ⟨_, failJob_ok_iff.mpr ⟨hr, rfl⟩, hs, rfl, ?_⟩
    show some (execTime job now) = some (now - s)
    unfold execTime
    rw [hs]
    show some (if s = 0 then 0 else now - s) = some (now - s)
    rw [if_neg hz]

/-- Witness for the amended C8: completing the running `jR` (started at 5,
nonzero) at time 9 records `finished_at = 9` and `execution_time = 4 = 9 - 5`. -/
theorem C8_execution_time_witness :
    ∃ jc, completeJob jR (JobResult.success (JsVal.str "m") none) 9 = .ok jc ∧
      jc.finished_at = some 9 ∧ jc.execution_time = some 4 := by
  obtain ⟨⟨jc, h1, _, h3, h4⟩, _⟩ :=
    C8_execution_time jR 5 (JobResult.success (JsVal.str "m") none) 9 (by decide)
      (by decide) (by decide)
  exact ⟨jc, h1, h3, by rw [h4]; decide⟩

/-- Counterexample to Claim C9 as stated: for the non-canonical type
"toString" the lookup `messages[jobType]` finds the truthy inherited
`Object.prototype` member, so `|| fallback` does not fire and the failure
result's message is the inherited member, not the generic fallback the
claim asserts for all non-canonical types. -/
theorem C9_executor_counterexample :
    executeJob jT true 2 7 9 = .ok jTfail ∧
      jTfail.result = some (JobResult.error (JsVal.inherited "toString") 503
        (some ("toString", 7))) ∧
      JsVal.inherited "toString" ≠
        JsVal.str ("Failed to execute job of type '" ++ "toString" ++ "'") := by
  exact ⟨by decide, by decide, by decide⟩

/-- Claim C9 (amended): for every Running job and every outcome of the
random draws, `executeJob` returns the snapshot produced by
`completeJob`/`failJob`: its status is Completed or Failed; when the
failure outcome is drawn the result is an error result whose code is one of
{500, 502, 503, 504} and whose message is the canonical phrase for the
known types (email, sms, notification, webhook); for a type naming an
inherited `Object.prototype` member the lookup returns that truthy
inherited member (the fallback does not fire); the generic fallback
"Failed to execute job of type ...'" applies otherwise; `executeJob` never
fails for any other reason when its precondition (Running) holds. -/
theorem C9_executor (job : Job) (draw : Bool) (idx : Fin 4) (tsData nowFin : Int)
    (hr : job.status = JobStatus.running) :
    ∃ f, executeJob job draw idx tsData nowFin = .ok f ∧
      (f.status = JobStatus.completed ∨ f.status = JobStatus.failed) ∧
      (draw = true → f.status = JobStatus.failed ∧
        ∃ code, f.result = some (JobResult.error
          (if job.type = "email" then JsVal.str "Failed to call SMTP service"
           else if job.type = "sms" then JsVal.str "Failed to call SMS gateway"
           else if job.type = "notification" then JsVal.str "Failed to deliver notification"
           else if job.type = "webhook" then JsVal.str "Failed to call webhook endpoint"
           else if objectPrototypeKeys.contains job.type then JsVal.inherited job.type
           else JsVal.str ("Failed to execute job of type '" ++ job.type ++ "'"))
          code (some (job.type, tsData))) ∧
          code ∈ ([500, 502, 503, 504] : List Int)) ∧
      (draw = false → f.status = JobStatus.completed) := by
  obtain ⟨f, hexec, _, _, htrue, hfalse⟩ := executeJob_ok_strong hr draw idx tsData nowFin
  refine ⟨f, hexec, ?_, ?_, fun hd => (hfalse hd).1⟩
  · cases draw
    · exact Or.inl (hfalse rfl).1
    · exact Or.inr (htrue rfl).1
  · intro hd
    obtain ⟨hst, hres⟩ := htrue hd
    refine ⟨hst, generateErrorCode idx, ?_, ?_⟩
    · rw [hres]
      rfl
    · fin_cases idx <;> decide

/-- Witness for the amended C9: executing the running webhook job `jR` with
the failure draw and code index 2 yields a Failed snapshot carrying the
canonical webhook failure phrase and a code from the fixed set. -/
theorem C9_executor_witness :
    ∃ f code, executeJob jR true 2 7 9 = .ok f ∧ f.status = JobStatus.failed ∧
      f.result = some (JobResult.error (JsVal.str "Failed to call webhook endpoint") code
        (some ("webhook", 7))) ∧ code ∈ ([500, 502, 503, 504] : List Int) := by
  obtain ⟨f, h1, _, h3, _⟩ := C9_executor jR true 2 7 9 (by decide)
  obtain ⟨hst, code, hres, hmem⟩ := h3 rfl
  have hmsg : (if jR.type = "email" then JsVal.str "Failed to call SMTP service"
      else if jR.type = "sms" then JsVal.str "Failed to call SMS gateway"
      else if jR.type = "notification" then JsVal.str "Failed to deliver notification"
      else if jR.type = "webhook" then JsVal.str "Failed to call webhook endpoint"
      else if objectPrototypeKeys.contains jR.type then JsVal.inherited jR.type
      else JsVal.str ("Failed to execute job of type '" ++ jR.type ++ "'")) =
      JsVal.str "Failed to call webhook endpoint" := by decide
  rw [hmsg] at hres
  exact ⟨f, code, h1, hst, hres, hmem⟩

/-- Counterexample to Claim C10 as stated: a snapshot that became Running
via `startJob` at clock reading 0 is reachable and has `started_at` defined
but falsy, so the defensive branch of `completeJob`/`failJob` IS taken: it
records `execution_time = 0`, not `now - started_at = 9`. -/
theorem C10_running_counterexample :
    Reachable jZr ∧ jZr.status = JobStatus.running ∧ jZr.started_at = some 0 ∧
      completeJob jZr (JobResult.success (JsVal.str "m") none) 9 = .ok jZrc ∧
      jZrc.execution_time = some 0 ∧ (0 : Int) ≠ 9 - 0 := by
  refine ⟨?_, by decide, by decide, by decide, by decide, by decide⟩
  exact Reachable.started jZ0 0 jZr
    (Reachable.created ⟨"email", RawPayload.mapping ["to"], none⟩ "z" 0 jZ0 (by decide))
    (by decide)

/-- Claim C10 (amended): every snapshot returned by `startJob` has
`started_at` defined, and this is an invariant of all Running snapshots
reachable through the transition functions; whenever that `started_at` is
nonzero (truthy), the defensive branch of `execTime` (which sets
`execution_time` to 0) is not taken in `completeJob`/`failJob` and the
recorded `execution_time` is `now - started_at`.  (As stated the claim
called the branch unreachable outright: presence does not imply truthiness,
and a job started at clock reading 0 does take the branch.) -/
theorem C10_running_has_started (j : Job) (hre : Reachable j)
    (hr : j.status = JobStatus.running) :
    ∃ s, j.started_at = some s ∧
      (s ≠ 0 →
        (∀ res now, ∃ jc, completeJob j res now = .ok jc ∧
          jc.execution_time = some (now - s)) ∧
        (∀ res now, ∃ jf, failJob j res now = .ok jf ∧
          jf.execution_time = some (now - s))) := by
  obtain ⟨s, hs⟩ := reachable_running_started hre hr
  refine ⟨s, hs, fun hz => ⟨?_, ?_⟩⟩ <;> intro res now
  · refine ⟨_, completeJob_ok_iff.mpr ⟨hr, rfl⟩, ?_⟩
    show some (execTime j now) = some (now - s)
    unfold execTime
    rw [hs]
    show some (if s = 0 then 0 else now - s) = some (now - s)
    rw [if_neg hz]
  · refine ⟨_, failJob_ok_iff.mpr ⟨hr, rfl⟩, ?_⟩
    show some (execTime j now) = some (now - s)
    unfold execTime
    rw [hs]
    show some (if s = 0 then 0 else now - s) = some (now - s)
    rw [if_neg hz]

/-- Witness for the amended C10: `jArun` is reachable (created, then started
at 5), is Running, has the nonzero `started_at = some 5`, and completing it
at 9 records `execution_time = 9 - 5`. -/
theorem C10_running_has_started_witness :
    ∃ s, jArun.started_at = some s ∧
      ∃ jc, completeJob jArun (JobResult.success (JsVal.str "m") none) 9 = .ok jc ∧
        jc.execution_time = some (9 - s) := by
  have hre : Reachable jArun :=
    Reachable.started jA 5 jArun
      (Reachable.created ⟨"email", RawPayload.mapping ["to"], none⟩ "a" 1 jA (by decide))
      (by decide)
  obtain ⟨s, hs, h2⟩ := C10_running_has_started jArun hre (by decide)
  have hseq : s = 5 := by simpa [jArun] using hs.symm
  obtain ⟨hcomp, _⟩ := h2 (by rw [hseq]; decide)
  obtain ⟨jc, h1, h3⟩ := hcomp (JobResult.success (JsVal.str "m") none) 9
  exact ⟨s, hs, jc, h1, h3⟩

end JobService
